import Mathlib

/-!
Verification of the DuHasT Mainline-DHT client core against its
natural-language specification.  The Rust source is shallowly embedded:
bytes are `Nat` values (< 256 where it matters), byte buffers are
`List Nat`, machine integers are `Nat` with explicit `% 2^w` at the
points where the source wraps.
-/

namespace DuHasT

/-! ## BEP-42 identity derivation (src/bep_0042.rs) -/

/-- One step of the reflected CRC-32C (Castagnoli) bit loop:
shift right one bit, xoring in the reversed polynomial 0x82F63B78
when the low bit was set. -/
def crc32cStep (crc : Nat) : Nat :=
  if crc % 2 = 1 then Nat.xor (crc / 2) 0x82F63B78 else crc / 2

/-- Iterate `crc32cStep` n times. -/
def crcRounds : Nat → Nat → Nat
  | 0, c => c
  | n + 1, c => crcRounds n (crc32cStep c)

/-- Fold one input byte into the CRC state (reflected algorithm). -/
def crc32cByte (crc b : Nat) : Nat :=
  crcRounds 8 (Nat.xor crc (b % 256))

/-- CRC-32C of a byte buffer, as computed by `crc32c_hw::compute`:
initial state 0xFFFFFFFF, final xor 0xFFFFFFFF. -/
def crc32c (data : List Nat) : Nat :=
  Nat.xor (data.foldl crc32cByte 0xFFFFFFFF) 0xFFFFFFFF

/-- `std::net::IpAddr`: a V4 address carries its 4 octets, a V6
address its 16 octets. -/
inductive IpAddr where
  | v4 (octets : List Nat)
  | v6 (octets : List Nat)

/-- The per-version IPv4 mask of `get_crc` (src/bep_0042.rs line 10). -/
def maskV4 : List Nat := [0x03, 0x0f, 0x3f, 0xff]

/-- The per-version IPv6 mask of `get_crc` (src/bep_0042.rs line 16).
The source zips these 8 mask bytes with the 16 address octets, so only
the first 8 octets enter the masked buffer. -/
def maskV6 : List Nat := [0x01, 0x03, 0x07, 0x0f, 0x1f, 0x3f, 0x7f, 0xff]

/-- `masked[0] |= r << 5` (src/bep_0042.rs lines 11 and 17): or
`r << 5` (u8 arithmetic, so modulo 256) into the first masked octet. -/
def setSalt (masked : List Nat) (r : Nat) : List Nat :=
  match masked with
  | [] => []
  | m0 :: rest => Nat.lor m0 (r * 32 % 256) :: rest

/-- `get_crc` (src/bep_0042.rs lines 7-21): mask the address octets
against the per-version mask (zip truncates at the shorter list, as
`iter().zip(...)` does), inject the salt into the first octet, and
CRC-32C the masked buffer. -/
def getCrc (ip : IpAddr) (r : Nat) : Nat :=
  match ip with
  | .v4 octets =>
    crc32c (setSalt (List.zipWith (fun a b => Nat.land a b) maskV4 octets) r)
  | .v6 octets =>
    crc32c (setSalt (List.zipWith (fun a b => Nat.land a b) maskV6 octets) r)

/-- `gen_self_id` (src/bep_0042.rs lines 23-34) on an already drawn
20-byte random candidate: r is the candidate's last byte, the CRC's
big-endian bytes overwrite id[0], id[1] and the top five bits of id[2]. -/
def genSelfId (ip : IpAddr) (cand : List Nat) : List Nat :=
  let crc := getCrc ip (cand.getD 19 0)
  let c0 := crc / 2 ^ 24
  let c1 := crc / 2 ^ 16 % 256
  let c2 := crc / 2 ^ 8 % 256
  c0 :: c1 :: Nat.lor (Nat.land c2 0xF8) (Nat.land (cand.getD 2 0) 0x07)
    :: cand.drop 3

/-- The value of the first 21 bits of a 20-byte id, read big-endian:
13 bits worth of byte 0, 5 of byte 1, and the top 5 bits of byte 2. -/
def first21Bits (id : List Nat) : Nat :=
  id.getD 0 0 * 2 ^ 13 + id.getD 1 0 * 2 ^ 5 + id.getD 2 0 / 8

/-! ## DhtId hex parsing and display (src/dht.rs lines 40-74) -/

/-- Value of one ASCII hex digit, as `char::to_digit(16)` inside
`u8::from_str_radix`: 0-9, a-f and A-F are accepted. -/
def hexDigitVal (b : Nat) : Option Nat :=
  if 48 ≤ b ∧ b ≤ 57 then some (b - 48)
  else if 97 ≤ b ∧ b ≤ 102 then some (b - 87)
  else if 65 ≤ b ∧ b ≤ 70 then some (b - 55)
  else none

/-- `u8::from_str_radix(chunk, 16)` on a two-byte chunk.  Rust's
`from_str_radix` accepts an optional leading `+` sign (a `-` sign is
rejected for the unsigned `u8`, falling through to the digit loop
where 0x2D is not a digit); two hex digits cannot overflow a `u8`. -/
def hexChunk (a b : Nat) : Option Nat :=
  if a = 43 then hexDigitVal b
  else
    match hexDigitVal a, hexDigitVal b with
    | some x, some y => some (x * 16 + y)
    | _, _ => none

/-- Whether a two-byte slice of a valid UTF-8 string is itself valid
UTF-8 (what `str::from_utf8` checks on each `chunks(2)` element):
either two ASCII bytes, or a two-byte sequence lead + continuation. -/
def utf8Pair (a b : Nat) : Bool :=
  (a < 128 && b < 128) || (194 ≤ a && a ≤ 223 && 128 ≤ b && b ≤ 191)

/-- Result of `DhtId::from_str`: `ok` and `errored` are the two sides
of the returned `Result`; `panicked` records that the
`str::from_utf8(x).unwrap()` on a chunk panicked. -/
inductive FromStrOut where
  | ok (bytes : List Nat)
  | errored
  | panicked
deriving DecidableEq, Repr

/-- The chunk loop of `DhtId::from_str` (src/dht.rs lines 44-50):
take the input bytes two at a time, `str::from_utf8(chunk).unwrap()`
(panic on an invalid chunk), then `u8::from_str_radix(chunk, 16)`
(early `Err` return on a chunk that is not a hex numeral). -/
def fromStrGo : List Nat → FromStrOut
  | [] => .ok []
  | a :: b :: rest =>
    if utf8Pair a b then
      match hexChunk a b with
      | some v =>
        match fromStrGo rest with
        | .ok tl => .ok (v :: tl)
        | r => r
      | none => .errored
    else .panicked
  | [a] =>
    if a < 128 then
      match hexDigitVal a with
      | some v => .ok [v]
      | none => .errored
    else .panicked

/-- `DhtId::from_str` (src/dht.rs lines 40-55): a 40-byte check, then
the chunk loop. -/
def dhtIdFromStr (s : List Nat) : FromStrOut :=
  if s.length = 40 then fromStrGo s else .errored

/-- Every two-byte chunk of the input is accepted by
`u8::from_str_radix(chunk, 16)` (the loop of `DhtId::from_str`
succeeds on every chunk). -/
def allChunksHex : List Nat → Bool
  | [] => true
  | a :: b :: rest => (hexChunk a b).isSome && allChunksHex rest
  | [a] => (hexDigitVal a).isSome

/-- Lowercase hex digit for a 4-bit value, as `write!("{:02x}", b)`. -/
def hexLower (v : Nat) : Nat := if v < 10 then v + 48 else v + 87

/-- Uppercase hex digit for a 4-bit value. -/
def hexUpper (v : Nat) : Nat := if v < 10 then v + 48 else v + 55

/-- The `Display` impl for `DhtId` (src/dht.rs lines 58-65): each byte
as two lowercase hex characters. -/
def dhtIdDisplay (id : List Nat) : List Nat :=
  id.flatMap (fun b => [hexLower (b / 16), hexLower (b % 16)])

/-- The same id rendered with uppercase hex digits (what a
case-insensitive parser must also accept). -/
def dhtIdDisplayUpper (id : List Nat) : List Nat :=
  id.flatMap (fun b => [hexUpper (b / 16), hexUpper (b % 16)])

/-! ## Compact node packings (src/dht.rs lines 125-256) -/

/-- `CompactNode` (src/dht.rs lines 182-187): 20-byte id, IPv4
octets, and a port. -/
structure CompactNode where
  id : List Nat
  ip0 : Nat
  ip1 : Nat
  ip2 : Nat
  ip3 : Nat
  port : Nat
deriving DecidableEq, Repr

/-- `CompactNode::unpack` (src/dht.rs lines 189-198).  The source
asserts the buffer is exactly 26 bytes (`none` models the assertion
firing) and reads the port with `u16::from_le_bytes`. -/
def compactNodeUnpack (buf : List Nat) : Option CompactNode :=
  if buf.length = 26 then
    some ⟨buf.take 20, buf.getD 20 0, buf.getD 21 0, buf.getD 22 0,
          buf.getD 23 0, buf.getD 24 0 + 256 * buf.getD 25 0⟩
  else none

/-- `DhtContactId::new` (src/dht.rs lines 129-143): 20 id bytes, 4 ip
octets, then the port in big-endian (`u16::to_be_bytes`). -/
def dhtContactIdNew (id : List Nat) (i0 i1 i2 i3 port : Nat) : List Nat :=
  id ++ [i0, i1, i2, i3] ++ [port / 256 % 256, port % 256]

/-- Codec error taxonomy (spec section 7). -/
inductive CodecError where
  | badLength
  | unknownKind
  | unknownQuery
  | malformed
deriving DecidableEq, Repr

/-- The `CompactNodesList` deserialization visitor (src/dht.rs lines
225-249): accept a byte-string whose length is a multiple of 26,
otherwise fail with a length error. -/
def decodeCompactNodesList (v : List Nat) : Except CodecError (List Nat) :=
  if v.length % 26 = 0 then .ok v else .error .badLength

/-- `slice::chunks(26)` as used by `CompactNodesList::iter`
(src/dht.rs lines 203-209). -/
def chunks26 : List Nat → List (List Nat)
  | [] => []
  | a :: rest => ((a :: rest).take 26) :: chunks26 ((a :: rest).drop 26)
termination_by l => l.length
decreasing_by simp [List.length_drop]; omega

/-- `CompactNodesList::iter`: unpack each 26-byte chunk. -/
def compactNodesIter (v : List Nat) : List (Option CompactNode) :=
  (chunks26 v).map compactNodeUnpack

/-! ## Query queue (src/query_queue.rs, src/main.rs receive loop) -/

/-- The sending half of the `tokio::sync::oneshot` channel held by a
Waiter.  `receiverAlive` records whether the `Receiver` (the future
returned by `send_message`) still exists; `Sender::send` returns
`Err(value)` exactly when it does not. -/
structure ReplyInfo where
  receiverAlive : Bool
deriving DecidableEq, Repr

/-- Association-list lookup for the `HashMap<QueryId, ReplyInfo>`. -/
def assocFind (k : Nat) : List (Nat × ReplyInfo) → Option ReplyInfo
  | [] => none
  | (k', v) :: rest => if k' = k then some v else assocFind k rest

/-- Association-list removal (`HashMap::remove_entry`). -/
def assocErase (k : Nat) : List (Nat × ReplyInfo) → List (Nat × ReplyInfo)
  | [] => []
  | (k', v) :: rest => if k' = k then rest else (k', v) :: assocErase k rest

/-- `NodeQueue` (src/query_queue.rs lines 21-27): a rolling u16
counter and the map of outstanding Waiters. -/
structure NodeQueue where
  id : Nat
  waiting : List (Nat × ReplyInfo)
deriving DecidableEq, Repr

/-- `NodeQueue::get_next_id` (src/query_queue.rs lines 38-41):
pre-increment, wrapping at 2^16 as a u16 does. -/
def NodeQueue.getNextId (q : NodeQueue) : Nat × NodeQueue :=
  let i := (q.id + 1) % 65536
  (i, { q with id := i })

/-- `NodeQueue::add_reply_info` (src/query_queue.rs lines 43-48):
`HashMap::insert`, silently replacing a colliding Waiter. -/
def NodeQueue.addReplyInfo (q : NodeQueue) (id : Nat) (info : ReplyInfo) :
    NodeQueue :=
  { q with waiting := (id, info) :: assocErase id q.waiting }

/-- What a call to `NodeQueue::got_reply` does. -/
inductive GotReplyOutcome where
  | delivered (toId : Nat)
  | droppedNoWaiter
  | panicked
deriving DecidableEq, Repr

/-- `NodeQueue::got_reply` (src/query_queue.rs lines 50-55):
`remove_entry` the Waiter for `id` if present, then
`info.send.send(packet).unwrap()`.  `Sender::send` returns
`Err(packet)` when the receiver has been dropped, and `.unwrap()`
on that `Err` panics. -/
def NodeQueue.gotReply (q : NodeQueue) (id : Nat) :
    NodeQueue × GotReplyOutcome :=
  match assocFind id q.waiting with
  | some info =>
    let q' : NodeQueue := { q with waiting := assocErase id q.waiting }
    if info.receiverAlive then (q', .delivered id) else (q', .panicked)
  | none => (q, .droppedNoWaiter)

/-- The transaction-token bytes put on the wire by `send_message`
(src/query_queue.rs line 97): `id.to_be_bytes()` of the u16 id. -/
def sendTokenBytes (id : Nat) : List Nat :=
  [id / 256 % 256, id % 256]

/-- The receive loop's reconstruction of the query id from the echoed
token bytes (src/main.rs line 151):
`QueryId::from_ne_bytes([t[0], t[1]])`.  On the little-endian
reference targets (x86-64, aarch64-linux) native order is
little-endian, so this reads the bytes in the opposite order from
`to_be_bytes` on the send path. -/
def recvQueryId (t : List Nat) : Nat :=
  t.getD 0 0 + 256 * t.getD 1 0

/-! ## Bencode values

Modelled from the spec: the wire codec itself lives in the external
`serde_bencoded` crate, not under src/; spec section 4.2 fixes the
four bencode value kinds, the canonical sorted-key dictionary form on
encode, and the decode validation rules, while the dictionary shapes
and key names come from the `derive(Serialize, Deserialize)` message
declarations in src/dht.rs. -/

mutual
inductive BVal where
  | int (n : Int)
  | str (s : List Nat)
  | list (xs : BList)
  | dict (kvs : BDict)
inductive BList where
  | nil
  | cons (v : BVal) (tl : BList)
inductive BDict where
  | nil
  | cons (k : List Nat) (v : BVal) (tl : BDict)
end

/-- Decimal digits of a positive number, most significant first,
accumulated onto `acc`. -/
def natToDecAux : Nat → List Nat → List Nat
  | 0, acc => acc
  | n + 1, acc => natToDecAux ((n + 1) / 10) (((n + 1) % 10 + 48) :: acc)
decreasing_by exact Nat.div_lt_self (Nat.succ_pos n) (by omega)

/-- ASCII decimal representation of a natural number. -/
def natToDec (n : Nat) : List Nat :=
  if n = 0 then [48] else natToDecAux n []

/-- ASCII decimal representation of an integer (minus sign when
negative). -/
def intToDec : Int → List Nat
  | .ofNat n => natToDec n
  | .negSucc m => 45 :: natToDec (m + 1)

/-- Bencode byte-string encoding: `<len>:<bytes>`. -/
def encodeStr (s : List Nat) : List Nat :=
  natToDec s.length ++ (58 :: s)

mutual
/-- Bencode encoding of a value (`i<n>e`, `<len>:<bytes>`,
`l...e`, `d...e`). -/
def encodeVal : BVal → List Nat
  | .int n => 105 :: (intToDec n ++ [101])
  | .str s => encodeStr s
  | .list xs => 108 :: (encodeList xs ++ [101])
  | .dict kvs => 100 :: (encodeDict kvs ++ [101])
def encodeList : BList → List Nat
  | .nil => []
  | .cons v tl => encodeVal v ++ encodeList tl
def encodeDict : BDict → List Nat
  | .nil => []
  | .cons k v tl => encodeStr k ++ encodeVal v ++ encodeDict tl
end

/-- ASCII decimal digit test. -/
def isDigit (b : Nat) : Bool := 48 ≤ b && b ≤ 57

/-- Value of a run of ASCII decimal digits. -/
def digitsToNat (ds : List Nat) : Nat :=
  ds.foldl (fun a d => a * 10 + (d - 48)) 0

/-- Parse a nonempty run of decimal digits off the front of the
input. -/
def parseDecNat (l : List Nat) : Option (Nat × List Nat) :=
  let ds := l.takeWhile isDigit
  if ds.isEmpty then none
  else some (digitsToNat ds, l.dropWhile isDigit)

/-- Parse the body of a bencode integer (after the `i`), up to and
including the closing `e`. -/
def parseIntBody (l : List Nat) : Option (Int × List Nat) :=
  if l.headD 0 = 45 then
    (parseDecNat l.tail).bind fun p =>
      match p.2 with
      | 101 :: r => some (-(p.1 : Int), r)
      | _ => none
  else
    (parseDecNat l).bind fun p =>
      match p.2 with
      | 101 :: r => some ((p.1 : Int), r)
      | _ => none

/-- Parse a bencode byte-string: decimal length, `:`, that many
bytes. -/
def parseStrBody (l : List Nat) : Option (List Nat × List Nat) :=
  (parseDecNat l).bind fun p =>
    match p.2 with
    | 58 :: r => if p.1 ≤ r.length then some (r.take p.1, r.drop p.1) else none
    | _ => none

mutual
/-- Fuel-indexed bencode parser for one value. -/
def parseVal : Nat → List Nat → Option (BVal × List Nat)
  | 0, _ => none
  | fuel + 1, l =>
    if l.headD 0 = 105 then
      (parseIntBody l.tail).map fun p => (.int p.1, p.2)
    else if l.headD 0 = 108 then
      (parseElems fuel l.tail).map fun p => (.list p.1, p.2)
    else if l.headD 0 = 100 then
      (parsePairs fuel l.tail).map fun p => (.dict p.1, p.2)
    else
      (parseStrBody l).map fun p => (.str p.1, p.2)
/-- Parse list elements up to the closing `e`. -/
def parseElems : Nat → List Nat → Option (BList × List Nat)
  | 0, l => if l.headD 0 = 101 then some (.nil, l.tail) else none
  | fuel + 1, l =>
    if l.headD 0 = 101 then some (.nil, l.tail)
    else
      (parseVal fuel l).bind fun p =>
        (parseElems fuel p.2).map fun q => (.cons p.1 q.1, q.2)
/-- Parse dictionary pairs up to the closing `e`. -/
def parsePairs : Nat → List Nat → Option (BDict × List Nat)
  | 0, l => if l.headD 0 = 101 then some (.nil, l.tail) else none
  | fuel + 1, l =>
    if l.headD 0 = 101 then some (.nil, l.tail)
    else
      (parseStrBody l).bind fun p =>
        (parseVal fuel p.2).bind fun q =>
          (parsePairs fuel q.2).map fun w => (.cons p.1 q.1 w.1, w.2)
end

mutual
/-- Structural size of a value; a fuel budget sufficient to parse its
encoding. -/
def sizeV : BVal → Nat
  | .int _ => 1
  | .str _ => 1
  | .list xs => 1 + sizeL xs
  | .dict kvs => 1 + sizeD kvs
def sizeL : BList → Nat
  | .nil => 0
  | .cons v tl => 1 + sizeV v + sizeL tl
def sizeD : BDict → Nat
  | .nil => 0
  | .cons _ v tl => 1 + sizeV v + sizeD tl
end

/-- Parse a whole buffer as a single bencode value consuming all
input, with fuel derived from the input length. -/
def topParse (bytes : List Nat) : Option BVal :=
  (parseVal (bytes.length + 1) bytes).bind fun p =>
    if p.2 = [] then some p.1 else none

/-! ## Typed DHT messages (src/dht.rs lines 258-355)

The dictionary keys below are the serde field and tag names from the
struct declarations, as ASCII byte lists. -/

/-- Key "a". -/
def kA : List Nat := [97]
/-- Key "q". -/
def kQ : List Nat := [113]
/-- Key "r". -/
def kR : List Nat := [114]
/-- Key "t". -/
def kT : List Nat := [116]
/-- Key "y". -/
def kY : List Nat := [121]
/-- Key "e". -/
def kE : List Nat := [101]
/-- Key "id". -/
def kId : List Nat := [105, 100]
/-- Key "target". -/
def kTarget : List Nat := [116, 97, 114, 103, 101, 116]
/-- Key "info_hash". -/
def kInfoHash : List Nat := [105, 110, 102, 111, 95, 104, 97, 115, 104]
/-- Key "token". -/
def kToken : List Nat := [116, 111, 107, 101, 110]
/-- Key "port". -/
def kPort : List Nat := [112, 111, 114, 116]
/-- Key "implied_port". -/
def kImpliedPort : List Nat := [105, 109, 112, 108, 105, 101, 100, 95, 112, 111, 114, 116]
/-- Key "nodes". -/
def kNodes : List Nat := [110, 111, 100, 101, 115]
/-- Key "values". -/
def kValues : List Nat := [118, 97, 108, 117, 101, 115]
/-- Query name "ping". -/
def qnPing : List Nat := [112, 105, 110, 103]
/-- Query name "find_node". -/
def qnFindNode : List Nat := [102, 105, 110, 100, 95, 110, 111, 100, 101]
/-- Query name "get_peers". -/
def qnGetPeers : List Nat := [103, 101, 116, 95, 112, 101, 101, 114, 115]
/-- Query name "announce_peer". -/
def qnAnnouncePeer : List Nat := [97, 110, 110, 111, 117, 110, 99, 101, 95, 112, 101, 101, 114]

/-- `PingQuery` (src/dht.rs lines 259-261). -/
structure PingQuery where
  id : List Nat
deriving DecidableEq, Repr

/-- `FindNodeQuery` (src/dht.rs lines 263-267). -/
structure FindNodeQuery where
  id : List Nat
  target : List Nat
deriving DecidableEq, Repr

/-- `GetPeersQuery` (src/dht.rs lines 269-273). -/
structure GetPeersQuery where
  id : List Nat
  info_hash : List Nat
deriving DecidableEq, Repr

/-- `AnnouncePeerQuery` (src/dht.rs lines 275-283). -/
structure AnnouncePeerQuery where
  id : List Nat
  info_hash : List Nat
  token : List Nat
  port : Nat
  implied_port : Nat
deriving DecidableEq, Repr

/-- `PingResponse` (src/dht.rs lines 298-301). -/
structure PingResponse where
  id : List Nat
deriving DecidableEq, Repr

/-- `FindNodeResponse` (src/dht.rs lines 303-308); `nodes` is the raw
`CompactNodesList` byte blob. -/
structure FindNodeResponse where
  id : List Nat
  nodes : List Nat
deriving DecidableEq, Repr

/-- `GetPeersResponse` (src/dht.rs lines 310-318); `values` is an
optional list of 6-byte `NodeAddr` blobs, `nodes` an optional
`CompactNodesList` blob. -/
structure GetPeersResponse where
  id : List Nat
  token : List Nat
  values : Option (List (List Nat))
  nodes : Option (List Nat)
deriving DecidableEq, Repr

/-- `AnnouncePeerResponse` (src/dht.rs lines 320-323). -/
structure AnnouncePeerResponse where
  id : List Nat
deriving DecidableEq, Repr

/-- The eight typed messages of the wire codec: the four `Query`
variants and the four response types of src/dht.rs. -/
inductive TypedMsg where
  | ping (q : PingQuery)
  | findNode (q : FindNodeQuery)
  | getPeers (q : GetPeersQuery)
  | announcePeer (q : AnnouncePeerQuery)
  | pingResp (r : PingResponse)
  | findNodeResp (r : FindNodeResponse)
  | getPeersResp (r : GetPeersResponse)
  | announcePeerResp (r : AnnouncePeerResponse)
deriving DecidableEq, Repr

/-- Build the inner `BList` of a `values` list: each `NodeAddr`
serializes as a byte string. -/
def strsToBList : List (List Nat) → BList
  | [] => .nil
  | s :: tl => .cons (.str s) (strsToBList tl)

/-- The argument dictionary of a query, keys in canonical sorted
order (spec section 4.2: the encoder MUST emit sorted keys; field
names from src/dht.rs). -/
def serQueryArgs : TypedMsg → Option BDict
  | .ping q => some (.cons kId (.str q.id) .nil)
  | .findNode q =>
    some (.cons kId (.str q.id) (.cons kTarget (.str q.target) .nil))
  | .getPeers q =>
    some (.cons kId (.str q.id) (.cons kInfoHash (.str q.info_hash) .nil))
  | .announcePeer q =>
    some (.cons kId (.str q.id)
      (.cons kImpliedPort (.int q.implied_port)
        (.cons kInfoHash (.str q.info_hash)
          (.cons kPort (.int q.port)
            (.cons kToken (.str q.token) .nil)))))
  | _ => none

/-- The `q` query-name string of a query variant (serde rename
attributes in src/dht.rs lines 286-296). -/
def queryName : TypedMsg → Option (List Nat)
  | .ping _ => some qnPing
  | .findNode _ => some qnFindNode
  | .getPeers _ => some qnGetPeers
  | .announcePeer _ => some qnAnnouncePeer
  | _ => none

/-- The serialized `GetPeersResponse` dictionary, keys in canonical
sorted order (`id < nodes < token < values`); absent `Option` fields
are omitted. -/
def serGetPeersDict (r : GetPeersResponse) : BDict :=
  .cons kId (.str r.id)
    (match r.nodes with
     | some ns => .cons kNodes (.str ns)
         (.cons kToken (.str r.token)
           (match r.values with
            | some vs => .cons kValues (.list (strsToBList vs)) .nil
            | none => .nil))
     | none => .cons kToken (.str r.token)
         (match r.values with
          | some vs => .cons kValues (.list (strsToBList vs)) .nil
          | none => .nil))

/-- The response dictionary of a response message, keys in canonical
sorted order; absent `Option` fields are omitted. -/
def serRespDict : TypedMsg → Option BDict
  | .pingResp r => some (.cons kId (.str r.id) .nil)
  | .findNodeResp r =>
    some (.cons kId (.str r.id) (.cons kNodes (.str r.nodes) .nil))
  | .getPeersResp r => some (serGetPeersDict r)
  | .announcePeerResp r => some (.cons kId (.str r.id) .nil)
  | _ => none

/-- The `y` envelope discriminator of a typed message. -/
def yTag : TypedMsg → List Nat
  | .ping _ | .findNode _ | .getPeers _ | .announcePeer _ => kQ
  | _ => kR

/-- The full envelope dictionary of `OutgoingMessage` (src/dht.rs
lines 349-355) for a typed message and transaction token, keys in
canonical sorted order: `a`, `q`, `t`, `y` for a query and `r`, `t`,
`y` for a response. -/
def serOutgoing (m : TypedMsg) (t : List Nat) : BVal :=
  match serQueryArgs m, queryName m, serRespDict m with
  | some args, some name, _ =>
    .dict (.cons kA (.dict args)
      (.cons kQ (.str name)
        (.cons kT (.str t)
          (.cons kY (.str kQ) .nil))))
  | _, _, some rd =>
    .dict (.cons kR (.dict rd)
      (.cons kT (.str t)
        (.cons kY (.str kR) .nil)))
  | _, _, _ => .int 0

/-- The envelope dictionary of an outgoing error message
(`Message::E`, src/dht.rs lines 334-335): key `e` holds the
`[code, message]` pair. -/
def serError (code : Int) (msg : List Nat) (t : List Nat) : BVal :=
  .dict (.cons kE (.list (.cons (.int code) (.cons (.str msg) .nil)))
    (.cons kT (.str t)
      (.cons kY (.str kE) .nil)))

/-- The on-wire bytes of a typed message with transaction token `t`. -/
def encodeTyped (m : TypedMsg) (t : List Nat) : List Nat :=
  encodeVal (serOutgoing m t)

/-! ## Canonical dictionary ordering -/

/-- Strict lexicographic order on byte strings. -/
def lexLtBytes : List Nat → List Nat → Bool
  | [], [] => false
  | [], _ :: _ => true
  | _ :: _, [] => false
  | a :: as, b :: bs =>
    if a < b then true else if b < a then false else lexLtBytes as bs

/-- The keys of one dictionary node are in strictly ascending
lexicographic byte order. -/
def keysSorted : BDict → Bool
  | .nil => true
  | .cons _ _ .nil => true
  | .cons k _ (.cons k' v' tl) =>
    lexLtBytes k k' && keysSorted (.cons k' v' tl)

mutual
/-- Every dictionary occurring anywhere in the value has its keys in
ascending lexicographic byte order. -/
def valDictsSorted : BVal → Bool
  | .int _ => true
  | .str _ => true
  | .list xs => listDictsSorted xs
  | .dict kvs => keysSorted kvs && pairsDictsSorted kvs
def listDictsSorted : BList → Bool
  | .nil => true
  | .cons v tl => valDictsSorted v && listDictsSorted tl
def pairsDictsSorted : BDict → Bool
  | .nil => true
  | .cons _ v tl => valDictsSorted v && pairsDictsSorted tl
end

/-! ## Typed decoding

Modelled from the spec (section 4.2 decode contract, section 7 error
taxonomy) together with the serde derive attributes in src/dht.rs:
fields are fetched by key, unknown keys are ignored, 20-byte and
6-byte and multiple-of-26 length checks are enforced, absent
`Option` fields decode to `none`. -/

/-- First value bound to key `k` in a dictionary. -/
def dictLookup (k : List Nat) : BDict → Option BVal
  | .nil => none
  | .cons k' v tl => if k' = k then some v else dictLookup k tl

/-- A byte-string value. -/
def asStr : BVal → Option (List Nat)
  | .str s => some s
  | _ => none

/-- An integer value. -/
def asInt : BVal → Option Int
  | .int n => some n
  | _ => none

/-- A list value. -/
def asList : BVal → Option BList
  | .list xs => some xs
  | _ => none

/-- A 20-byte id field (`DhtIdDeserializerVisitor`, src/dht.rs lines
160-168). -/
def decodeId (v : BVal) : Option (List Nat) :=
  (asStr v).bind fun s => if s.length = 20 then some s else none

/-- A `u16` field: a bencode integer in `0..=65535`. -/
def decodeU16 (v : BVal) : Option Nat :=
  (asInt v).bind fun n =>
    if 0 ≤ n ∧ n < 65536 then some n.toNat else none

/-- A `u8` field: a bencode integer in `0..=255`. -/
def decodeU8 (v : BVal) : Option Nat :=
  (asInt v).bind fun n =>
    if 0 ≤ n ∧ n < 256 then some n.toNat else none

/-- A `CompactNodesList` field (src/dht.rs lines 234-248): byte
string whose length is a multiple of 26. -/
def decodeNodesField (v : BVal) : Option (List Nat) :=
  (asStr v).bind fun s => if s.length % 26 = 0 then some s else none

/-- A `Vec<NodeAddr>` field: a list of 6-byte strings
(`NodeAddrDeserializerVisitor`, src/dht.rs lines 103-111). -/
def decodeAddrs : BList → Option (List (List Nat))
  | .nil => some []
  | .cons v tl =>
    (asStr v).bind fun s =>
      if s.length = 6 then (decodeAddrs tl).map (s :: ·) else none

/-- Decode a `PingQuery` argument dictionary. -/
def decodePingQuery (d : BDict) : Option PingQuery :=
  ((dictLookup kId d).bind decodeId).map PingQuery.mk

/-- Decode a `FindNodeQuery` argument dictionary. -/
def decodeFindNodeQuery (d : BDict) : Option FindNodeQuery :=
  ((dictLookup kId d).bind decodeId).bind fun i =>
    ((dictLookup kTarget d).bind decodeId).map fun tg => ⟨i, tg⟩

/-- Decode a `GetPeersQuery` argument dictionary. -/
def decodeGetPeersQuery (d : BDict) : Option GetPeersQuery :=
  ((dictLookup kId d).bind decodeId).bind fun i =>
    ((dictLookup kInfoHash d).bind decodeId).map fun ih => ⟨i, ih⟩

/-- Decode an `AnnouncePeerQuery` argument dictionary. -/
def decodeAnnouncePeerQuery (d : BDict) : Option AnnouncePeerQuery :=
  ((dictLookup kId d).bind decodeId).bind fun i =>
    ((dictLookup kInfoHash d).bind decodeId).bind fun ih =>
      ((dictLookup kToken d).bind asStr).bind fun tok =>
        ((dictLookup kPort d).bind decodeU16).bind fun p =>
          ((dictLookup kImpliedPort d).bind decodeU8).map fun ip =>
            ⟨i, ih, tok, p, ip⟩

/-- Decode a `PingResponse` dictionary. -/
def decodePingResponse (d : BDict) : Option PingResponse :=
  ((dictLookup kId d).bind decodeId).map PingResponse.mk

/-- Decode a `FindNodeResponse` dictionary. -/
def decodeFindNodeResponse (d : BDict) : Option FindNodeResponse :=
  ((dictLookup kId d).bind decodeId).bind fun i =>
    ((dictLookup kNodes d).bind decodeNodesField).map fun ns => ⟨i, ns⟩

/-- Decode a `GetPeersResponse` dictionary: `values` and `nodes` are
`Option` fields, absent keys decode to `none`. -/
def decodeGetPeersResponse (d : BDict) : Option GetPeersResponse :=
  ((dictLookup kId d).bind decodeId).bind fun i =>
    ((dictLookup kToken d).bind asStr).bind fun tok =>
      (match dictLookup kValues d with
       | none => some none
       | some v => ((asList v).bind decodeAddrs).map some).bind fun vs =>
        (match dictLookup kNodes d with
         | none => some none
         | some v => (decodeNodesField v).map some).map fun ns =>
          ⟨i, tok, vs, ns⟩

/-- Decode an `AnnouncePeerResponse` dictionary. -/
def decodeAnnouncePeerResponse (d : BDict) : Option AnnouncePeerResponse :=
  ((dictLookup kId d).bind decodeId).map AnnouncePeerResponse.mk

/-- The eight message kinds a caller can ask the codec to decode. -/
inductive TKind where
  | ping | findNode | getPeers | announcePeer
  | pingResp | findNodeResp | getPeersResp | announcePeerResp
deriving DecidableEq, Repr

/-- The kind of a typed message. -/
def kindOf : TypedMsg → TKind
  | .ping _ => .ping
  | .findNode _ => .findNode
  | .getPeers _ => .getPeers
  | .announcePeer _ => .announcePeer
  | .pingResp _ => .pingResp
  | .findNodeResp _ => .findNodeResp
  | .getPeersResp _ => .getPeersResp
  | .announcePeerResp _ => .announcePeerResp

/-- The `q` name a query kind expects. -/
def kindQueryName : TKind → Option (List Nat)
  | .ping => some qnPing
  | .findNode => some qnFindNode
  | .getPeers => some qnGetPeers
  | .announcePeer => some qnAnnouncePeer
  | _ => none

/-- Decode the argument dictionary of a query kind. -/
def decodeQueryArgs (k : TKind) (d : BDict) : Option TypedMsg :=
  match k with
  | .ping => (decodePingQuery d).map .ping
  | .findNode => (decodeFindNodeQuery d).map .findNode
  | .getPeers => (decodeGetPeersQuery d).map .getPeers
  | .announcePeer => (decodeAnnouncePeerQuery d).map .announcePeer
  | _ => none

/-- Decode the response dictionary of a response kind. -/
def decodeRespDict (k : TKind) (d : BDict) : Option TypedMsg :=
  match k with
  | .pingResp => (decodePingResponse d).map .pingResp
  | .findNodeResp => (decodeFindNodeResponse d).map .findNodeResp
  | .getPeersResp => (decodeGetPeersResponse d).map .getPeersResp
  | .announcePeerResp => (decodeAnnouncePeerResponse d).map .announcePeerResp
  | _ => none

/-- Full typed decode of a datagram as `Message<R>` with the known
kind `k` (the two-phase protocol's second phase): parse the bencode,
read the `t` and `y` envelope fields, and decode the `a` or `r`
dictionary according to `k`. -/
def decodeTyped (k : TKind) (bytes : List Nat) :
    Option (TypedMsg × List Nat) :=
  (topParse bytes).bind fun v =>
    match v with
    | .dict d =>
      ((dictLookup kT d).bind asStr).bind fun t =>
        ((dictLookup kY d).bind asStr).bind fun y =>
          match kindQueryName k with
          | some name =>
            if y = kQ then
              ((dictLookup kQ d).bind asStr).bind fun qn =>
                if qn = name then
                  (match dictLookup kA d with
                   | some (.dict args) => decodeQueryArgs k args
                   | _ => none).map fun m => (m, t)
                else none
            else none
          | none =>
            if y = kR then
              (match dictLookup kR d with
               | some (.dict rd) => decodeRespDict k rd
               | _ => none).map fun m => (m, t)
            else none
    | _ => none

/-- Shallow decode into `IncomingMessage` (src/dht.rs lines 341-347):
just the `y` discriminator and the `t` token bytes. -/
def decodeIncoming (bytes : List Nat) : Option (List Nat × List Nat) :=
  (topParse bytes).bind fun v =>
    match v with
    | .dict d =>
      ((dictLookup kY d).bind asStr).bind fun y =>
        ((dictLookup kT d).bind asStr).map fun t => (y, t)
    | _ => none

/-- Well-formedness of a typed message: the length invariants the
codec enforces on decode (20-byte ids, 6-byte addresses, node blobs a
multiple of 26 bytes, ports in range). -/
def wfMsg : TypedMsg → Prop
  | .ping q => q.id.length = 20
  | .findNode q => q.id.length = 20 ∧ q.target.length = 20
  | .getPeers q => q.id.length = 20 ∧ q.info_hash.length = 20
  | .announcePeer q =>
    q.id.length = 20 ∧ q.info_hash.length = 20
      ∧ q.port < 65536 ∧ q.implied_port < 256
  | .pingResp r => r.id.length = 20
  | .findNodeResp r => r.id.length = 20 ∧ r.nodes.length % 26 = 0
  | .getPeersResp r =>
    r.id.length = 20 ∧ (∀ vs ∈ r.values, ∀ a ∈ vs, a.length = 6)
      ∧ ∀ ns ∈ r.nodes, ns.length % 26 = 0
  | .announcePeerResp r => r.id.length = 20

instance : DecidablePred wfMsg := by
  intro m
  cases m <;> simp only [wfMsg] <;> infer_instance

/-! ## Decimal representation lemmas -/

theorem natToDecAux_append (n : Nat) : ∀ acc : List Nat,
    natToDecAux n acc = natToDecAux n [] ++ acc := by
  induction n using Nat.strong_induction_on with
  | _ n ih =>
    intro acc
    match n with
    | 0 => simp [natToDecAux]
    | m + 1 =>
      rw [natToDecAux, natToDecAux,
        ih ((m + 1) / 10) (Nat.div_lt_self (Nat.succ_pos m) (by omega)),
        ih ((m + 1) / 10) (Nat.div_lt_self (Nat.succ_pos m) (by omega))
          [(m + 1) % 10 + 48]]
      simp

theorem natToDecAux_digits (n : Nat) : ∀ acc : List Nat,
    (∀ d ∈ acc, isDigit d = true) →
    ∀ d ∈ natToDecAux n acc, isDigit d = true := by
  induction n using Nat.strong_induction_on with
  | _ n ih =>
    intro acc hacc d hd
    match n with
    | 0 => exact hacc d (by simpa [natToDecAux] using hd)
    | m + 1 =>
      rw [natToDecAux] at hd
      refine ih ((m + 1) / 10) (Nat.div_lt_self (Nat.succ_pos m) (by omega))
        _ ?_ d hd
      intro x hx
      rcases List.mem_cons.mp hx with h | h
      · subst h; simp [isDigit]; omega
      · exact hacc x h

theorem natToDec_digits (n : Nat) : ∀ d ∈ natToDec n, isDigit d = true := by
  unfold natToDec
  split
  · intro d hd; simp at hd; subst hd; decide
  · exact natToDecAux_digits n [] (by simp)

theorem natToDecAux_ne_nil (n : Nat) : ∀ acc : List Nat,
    (0 < n ∨ acc ≠ []) → natToDecAux n acc ≠ [] := by
  induction n using Nat.strong_induction_on with
  | _ n ih =>
    intro acc h
    match n with
    | 0 =>
      rcases h with h | h
      · omega
      · simpa [natToDecAux] using h
    | m + 1 =>
      rw [natToDecAux]
      exact ih ((m + 1) / 10) (Nat.div_lt_self (Nat.succ_pos m) (by omega))
        _ (Or.inr (by simp))

theorem natToDec_ne_nil (n : Nat) : natToDec n ≠ [] := by
  unfold natToDec
  split
  · simp
  · exact natToDecAux_ne_nil n [] (Or.inl (by omega))

theorem digitsToNat_append_one (xs : List Nat) (d : Nat) :
    digitsToNat (xs ++ [d]) = digitsToNat xs * 10 + (d - 48) := by
  simp [digitsToNat, List.foldl_append]

theorem digitsToNat_natToDecAux (n : Nat) (hn : 0 < n) :
    digitsToNat (natToDecAux n []) = n := by
  induction n using Nat.strong_induction_on with
  | _ n ih =>
    match n with
    | m + 1 =>
      rw [natToDecAux, natToDecAux_append]
      rw [digitsToNat_append_one]
      rcases Nat.eq_zero_or_pos ((m + 1) / 10) with h0 | hpos
      · rw [h0]
        simp [natToDecAux, digitsToNat]
        omega
      · rw [ih ((m + 1) / 10) (Nat.div_lt_self (Nat.succ_pos m) (by omega)) hpos]
        omega

theorem digitsToNat_natToDec (n : Nat) : digitsToNat (natToDec n) = n := by
  unfold natToDec
  split
  · subst_vars; simp [digitsToNat]
  · exact digitsToNat_natToDecAux n (by omega)

theorem natToDec_cons (n : Nat) :
    ∃ d ds, natToDec n = d :: ds ∧ isDigit d = true := by
  rcases hn : natToDec n with _ | ⟨d, ds⟩
  · exact absurd hn (natToDec_ne_nil n)
  · exact ⟨d, ds, rfl, natToDec_digits n d (by rw [hn]; simp)⟩

/-! ## Primitive parser round-trips -/

theorem takeWhile_dropWhile_append {p : Nat → Bool} :
    ∀ ds rest : List Nat, (∀ d ∈ ds, p d = true) →
      (∀ x, rest.head? = some x → p x = false) →
      (ds ++ rest).takeWhile p = ds ∧ (ds ++ rest).dropWhile p = rest := by
  intro ds
  induction ds with
  | nil =>
    intro rest _ hr
    cases rest with
    | nil => simp
    | cons x t =>
      have := hr x rfl
      simp [List.takeWhile_cons, List.dropWhile_cons, this]
  | cons d ds ih =>
    intro rest hds hr
    have hd : p d = true := hds d (by simp)
    have := ih rest (fun x hx => hds x (by simp [hx])) hr
    simp [List.takeWhile_cons, List.dropWhile_cons, hd, this.1, this.2]

theorem parseDecNat_encode (n : Nat) (rest : List Nat)
    (h : ∀ x, rest.head? = some x → isDigit x = false) :
    parseDecNat (natToDec n ++ rest) = some (n, rest) := by
  have hw := takeWhile_dropWhile_append (natToDec n) rest (natToDec_digits n) h
  have hne : (natToDec n).isEmpty = false := by
    rcases natToDec_cons n with ⟨d, ds, hds, _⟩
    simp [hds]
  simp [parseDecNat, hw.1, hw.2, hne, digitsToNat_natToDec]

theorem parseStrBody_encode (s rest : List Nat) :
    parseStrBody (encodeStr s ++ rest) = some (s, rest) := by
  have harg : encodeStr s ++ rest = natToDec s.length ++ (58 :: (s ++ rest)) := by
    simp [encodeStr]
  rw [harg, parseStrBody,
    parseDecNat_encode s.length (58 :: (s ++ rest)) (by intro x hx; simp at hx; subst hx; decide)]
  have hlen : s.length ≤ (s ++ rest).length := by simp
  simp [hlen, List.take_append_eq_append_take, List.drop_append_eq_append_drop]

theorem parseIntBody_encode (n : Int) (rest : List Nat) :
    parseIntBody (intToDec n ++ (101 :: rest)) = some (n, rest) := by
  cases n with
  | ofNat m =>
    rcases natToDec_cons m with ⟨d, ds, hds, hdig⟩
    have hd45 : d ≠ 45 := by simp [isDigit] at hdig; omega
    have harg : intToDec (Int.ofNat m) ++ (101 :: rest)
        = natToDec m ++ (101 :: rest) := by simp [intToDec]
    rw [harg, parseIntBody]
    rw [hds]
    simp only [List.cons_append, List.headD_cons]
    rw [if_neg hd45, ← List.cons_append, ← hds,
      parseDecNat_encode m (101 :: rest) (by intro x hx; simp at hx; subst hx; decide)]
    simp
  | negSucc m =>
    rw [intToDec, parseIntBody]
    simp only [List.cons_append, List.headD_cons, List.tail_cons, if_pos rfl]
    rw [parseDecNat_encode (m + 1) (101 :: rest)
      (by intro x hx; simp at hx; subst hx; decide)]
    simp [Int.negSucc_eq]

theorem encodeVal_headD (v : BVal) (r : List Nat) :
    (encodeVal v ++ r).headD 0 = 105 ∨ (encodeVal v ++ r).headD 0 = 108
    ∨ (encodeVal v ++ r).headD 0 = 100
    ∨ isDigit ((encodeVal v ++ r).headD 0) = true := by
  cases v with
  | int n => left; simp [encodeVal]
  | str s =>
    right; right; right
    rcases natToDec_cons s.length with ⟨d, ds, hds, hdig⟩
    simp [encodeVal, encodeStr, hds, hdig]
  | list xs => right; left; simp [encodeVal]
  | dict kvs => right; right; left; simp [encodeVal]

theorem encodeVal_headD_ne_e (v : BVal) (r : List Nat) :
    ((encodeVal v ++ r).headD 0 = 101) = False := by
  simp only [eq_iff_iff, iff_false]
  rcases encodeVal_headD v r with h | h | h | h
  · rw [h]; decide
  · rw [h]; decide
  · rw [h]; decide
  · simp only [isDigit, Bool.and_eq_true, decide_eq_true_eq] at h
    omega

theorem parse_encode (fuel : Nat) :
    (∀ (v : BVal) (rest : List Nat), sizeV v ≤ fuel →
      parseVal fuel (encodeVal v ++ rest) = some (v, rest))
    ∧ (∀ (xs : BList) (rest : List Nat), sizeL xs ≤ fuel →
      parseElems fuel (encodeList xs ++ (101 :: rest)) = some (xs, rest))
    ∧ (∀ (kvs : BDict) (rest : List Nat), sizeD kvs ≤ fuel →
      parsePairs fuel (encodeDict kvs ++ (101 :: rest)) = some (kvs, rest)) := by
  induction fuel with
  | zero =>
    refine ⟨fun v rest h => absurd h (by cases v <;> simp [sizeV]), ?_, ?_⟩
    · intro xs rest h
      cases xs with
      | nil => simp [parseElems, encodeList]
      | cons v tl => simp [sizeL] at h
    · intro kvs rest h
      cases kvs with
      | nil => simp [parsePairs, encodeDict]
      | cons k v tl => simp [sizeD] at h
  | succ fuel ih =>
    obtain ⟨ih1, ih2, ih3⟩ := ih
    have L1 : ∀ (v : BVal) (rest : List Nat), sizeV v ≤ fuel + 1 →
        parseVal (fuel + 1) (encodeVal v ++ rest) = some (v, rest) := by
      intro v rest _h
      cases v with
      | int n =>
        rw [encodeVal]
        simp only [List.cons_append, List.append_assoc, List.singleton_append]
        rw [parseVal]
        simp [parseIntBody_encode]
      | str s =>
        rcases natToDec_cons s.length with ⟨d, ds, hds, hdig⟩
        have hd : d ≠ 105 ∧ d ≠ 108 ∧ d ≠ 100 := by
          simp [isDigit] at hdig; omega
        have harg : encodeVal (.str s) ++ rest
            = d :: (ds ++ (58 :: (s ++ rest))) := by
          simp [encodeVal, encodeStr, hds]
        rw [harg, parseVal]
        simp only [List.headD_cons, List.tail_cons]
        rw [if_neg hd.1, if_neg hd.2.1, if_neg hd.2.2, ← harg]
        rw [show encodeVal (.str s) = encodeStr s from rfl]
        rw [parseStrBody_encode]
        simp
      | list xs =>
        have hsz : sizeL xs ≤ fuel := by simp [sizeV] at _h; omega
        rw [encodeVal]
        simp only [List.cons_append, List.append_assoc, List.singleton_append]
        rw [parseVal]
        simp [ih2 xs rest hsz]
      | dict kvs =>
        have hsz : sizeD kvs ≤ fuel := by simp [sizeV] at _h; omega
        rw [encodeVal]
        simp only [List.cons_append, List.append_assoc, List.singleton_append]
        rw [parseVal]
        simp [ih3 kvs rest hsz]
    refine ⟨L1, ?_, ?_⟩
    · intro xs rest h
      cases xs with
      | nil => simp [parseElems, encodeList]
      | cons v tl =>
        have hv : sizeV v ≤ fuel := by simp [sizeL] at h; omega
        have htl : sizeL tl ≤ fuel := by simp [sizeL] at h; omega
        have harg : encodeList (.cons v tl) ++ (101 :: rest)
            = encodeVal v ++ (encodeList tl ++ (101 :: rest)) := by
          simp [encodeList]
        rw [harg, parseElems]
        rw [if_neg (by rw [encodeVal_headD_ne_e]; exact id)]
        rw [ih1 v _ hv]
        simp [ih2 tl rest htl]
    · intro kvs rest h
      cases kvs with
      | nil => simp [parsePairs, encodeDict]
      | cons k v tl =>
        have hv : sizeV v ≤ fuel := by simp [sizeD] at h; omega
        have htl : sizeD tl ≤ fuel := by simp [sizeD] at h; omega
        rcases natToDec_cons k.length with ⟨d, ds, hds, hdig⟩
        have hd : ¬ d = 101 := by simp [isDigit] at hdig; omega
        have harg : encodeDict (.cons k v tl) ++ (101 :: rest)
            = encodeStr k ++ (encodeVal v ++ (encodeDict tl ++ (101 :: rest))) := by
          simp [encodeDict]
        have hhead : (encodeDict (.cons k v tl) ++ (101 :: rest)).headD 0 = d := by
          rw [harg]; simp [encodeStr, hds]
        rw [parsePairs, if_neg (by rw [hhead]; exact hd), harg]
        rw [parseStrBody_encode]
        simp [ih1 v _ hv, ih3 tl rest htl]

mutual
theorem sizeV_lt_encode : ∀ v : BVal, sizeV v < (encodeVal v).length
  | .int n => by simp [sizeV, encodeVal]
  | .str s => by
    have h1 : natToDec s.length ≠ [] := natToDec_ne_nil s.length
    have h2 : 0 < (natToDec s.length).length := List.length_pos.mpr h1
    simp [sizeV, encodeVal, encodeStr]
    omega
  | .list xs => by
    have := sizeL_le_encode xs
    simp [sizeV, encodeVal]; omega
  | .dict kvs => by
    have := sizeD_le_encode kvs
    simp [sizeV, encodeVal]; omega
theorem sizeL_le_encode : ∀ xs : BList, sizeL xs ≤ (encodeList xs).length
  | .nil => by simp [sizeL, encodeList]
  | .cons v tl => by
    have h1 := sizeV_lt_encode v
    have h2 := sizeL_le_encode tl
    simp [sizeL, encodeList]; omega
theorem sizeD_le_encode : ∀ kvs : BDict, sizeD kvs ≤ (encodeDict kvs).length
  | .nil => by simp [sizeD, encodeDict]
  | .cons k v tl => by
    have h1 := sizeV_lt_encode v
    have h2 := sizeD_le_encode tl
    simp [sizeD, encodeDict, encodeStr]; omega
end

theorem topParse_encode (v : BVal) : topParse (encodeVal v) = some v := by
  have hsz : sizeV v ≤ (encodeVal v).length + 1 :=
    Nat.le_succ_of_le (Nat.le_of_lt (sizeV_lt_encode v))
  have := (parse_encode ((encodeVal v).length + 1)).1 v [] hsz
  simp only [List.append_nil] at this
  simp [topParse, this]

/-! ## Typed decode lemmas -/

theorem asStr_str (s : List Nat) : asStr (.str s) = some s := rfl

theorem decodeId_str (s : List Nat) (h : s.length = 20) :
    decodeId (.str s) = some s := by
  simp [decodeId, asStr, h]

theorem decodeNodesField_str (s : List Nat) (h : s.length % 26 = 0) :
    decodeNodesField (.str s) = some s := by
  simp [decodeNodesField, asStr, h]

theorem decodeU16_int (p : Nat) (hp : p < 65536) :
    decodeU16 (.int (p : Int)) = some p := by
  unfold decodeU16 asInt
  rw [Option.some_bind]
  rw [if_pos ⟨Int.ofNat_nonneg p, by exact_mod_cast hp⟩]
  rw [Int.toNat_natCast]

theorem decodeU8_int (p : Nat) (hp : p < 256) :
    decodeU8 (.int (p : Int)) = some p := by
  unfold decodeU8 asInt
  rw [Option.some_bind]
  rw [if_pos ⟨Int.ofNat_nonneg p, by exact_mod_cast hp⟩]
  rw [Int.toNat_natCast]

theorem decodeAddrs_strs : ∀ vs : List (List Nat), (∀ a ∈ vs, a.length = 6) →
    decodeAddrs (strsToBList vs) = some vs := by
  intro vs
  induction vs with
  | nil => simp [strsToBList, decodeAddrs]
  | cons a tl ih =>
    intro h
    have ha : a.length = 6 := h a (by simp)
    simp [strsToBList, decodeAddrs, asStr, ha, ih (fun x hx => h x (by simp [hx]))]

theorem decodeGetPeers_ser (r : GetPeersResponse)
    (h1 : r.id.length = 20)
    (h2 : ∀ vs ∈ r.values, ∀ a ∈ vs, a.length = 6)
    (h3 : ∀ ns ∈ r.nodes, ns.length % 26 = 0) :
    decodeGetPeersResponse (serGetPeersDict r) = some r := by
  obtain ⟨i, tok, ov, on'⟩ := r
  simp only [Option.mem_def] at h2 h3
  simp only at h1
  cases ov with
  | none =>
    cases on' with
    | none =>
      simp only [serGetPeersDict]
      norm_num [decodeGetPeersResponse, dictLookup, kId, kNodes, kToken,
        kValues, decodeId, asStr, h1]
    | some ns =>
      have hns := h3 ns rfl
      simp only [serGetPeersDict]
      norm_num [decodeGetPeersResponse, dictLookup, kId, kNodes, kToken,
        kValues, decodeId, asStr, decodeNodesField, h1, hns]
  | some vs =>
    have hvs := h2 vs rfl
    cases on' with
    | none =>
      simp only [serGetPeersDict]
      norm_num [decodeGetPeersResponse, dictLookup, kId, kNodes, kToken,
        kValues, decodeId, asStr, asList, decodeAddrs_strs vs hvs, h1]
    | some ns =>
      have hns := h3 ns rfl
      simp only [serGetPeersDict]
      norm_num [decodeGetPeersResponse, dictLookup, kId, kNodes, kToken,
        kValues, decodeId, asStr, asList, decodeNodesField,
        decodeAddrs_strs vs hvs, h1, hns]

theorem rtPing (q : PingQuery) (t : List Nat) (h1 : q.id.length = 20) :
    decodeTyped .ping (encodeTyped (.ping q) t) = some (.ping q, t) := by
  unfold decodeTyped encodeTyped
  rw [topParse_encode, Option.some_bind]
  simp only [serOutgoing, serQueryArgs, queryName]
  simp only [dictLookup, kA, kQ, kT, kY]
  norm_num
  simp only [asStr, kindQueryName, decodeQueryArgs, decodePingQuery,
    Option.some_bind]
  simp only [dictLookup, kId]
  norm_num [decodeId, asStr, h1]

theorem rtFindNode (q : FindNodeQuery) (t : List Nat)
    (h1 : q.id.length = 20) (h2 : q.target.length = 20) :
    decodeTyped .findNode (encodeTyped (.findNode q) t)
      = some (.findNode q, t) := by
  unfold decodeTyped encodeTyped
  rw [topParse_encode, Option.some_bind]
  simp only [serOutgoing, serQueryArgs, queryName]
  simp only [dictLookup, kA, kQ, kT, kY]
  norm_num
  simp only [asStr, kindQueryName, decodeQueryArgs, decodeFindNodeQuery,
    Option.some_bind]
  simp only [dictLookup, kId, kTarget]
  norm_num [decodeId, asStr, h1, h2]

theorem rtGetPeers (q : GetPeersQuery) (t : List Nat)
    (h1 : q.id.length = 20) (h2 : q.info_hash.length = 20) :
    decodeTyped .getPeers (encodeTyped (.getPeers q) t)
      = some (.getPeers q, t) := by
  unfold decodeTyped encodeTyped
  rw [topParse_encode, Option.some_bind]
  simp only [serOutgoing, serQueryArgs, queryName]
  simp only [dictLookup, kA, kQ, kT, kY]
  norm_num
  simp only [asStr, kindQueryName, decodeQueryArgs, decodeGetPeersQuery,
    Option.some_bind]
  simp only [dictLookup, kId, kInfoHash]
  norm_num [decodeId, asStr, h1, h2]

theorem decodeAnnounce_args (q : AnnouncePeerQuery)
    (h1 : q.id.length = 20) (h2 : q.info_hash.length = 20)
    (h3 : q.port < 65536) (h4 : q.implied_port < 256) :
    decodeAnnouncePeerQuery (.cons kId (.str q.id)
      (.cons kImpliedPort (.int (q.implied_port : Int))
        (.cons kInfoHash (.str q.info_hash)
          (.cons kPort (.int (q.port : Int))
            (.cons kToken (.str q.token) .nil))))) = some q := by
  have e1 : dictLookup kId (.cons kId (.str q.id)
      (.cons kImpliedPort (.int (q.implied_port : Int))
        (.cons kInfoHash (.str q.info_hash)
          (.cons kPort (.int (q.port : Int))
            (.cons kToken (.str q.token) .nil))))) = some (.str q.id) := rfl
  have e2 : dictLookup kImpliedPort (.cons kId (.str q.id)
      (.cons kImpliedPort (.int (q.implied_port : Int))
        (.cons kInfoHash (.str q.info_hash)
          (.cons kPort (.int (q.port : Int))
            (.cons kToken (.str q.token) .nil)))))
      = some (.int (q.implied_port : Int)) := rfl
  have e3 : dictLookup kInfoHash (.cons kId (.str q.id)
      (.cons kImpliedPort (.int (q.implied_port : Int))
        (.cons kInfoHash (.str q.info_hash)
          (.cons kPort (.int (q.port : Int))
            (.cons kToken (.str q.token) .nil)))))
      = some (.str q.info_hash) := rfl
  have e4 : dictLookup kPort (.cons kId (.str q.id)
      (.cons kImpliedPort (.int (q.implied_port : Int))
        (.cons kInfoHash (.str q.info_hash)
          (.cons kPort (.int (q.port : Int))
            (.cons kToken (.str q.token) .nil)))))
      = some (.int (q.port : Int)) := rfl
  have e5 : dictLookup kToken (.cons kId (.str q.id)
      (.cons kImpliedPort (.int (q.implied_port : Int))
        (.cons kInfoHash (.str q.info_hash)
          (.cons kPort (.int (q.port : Int))
            (.cons kToken (.str q.token) .nil)))))
      = some (.str q.token) := rfl
  rw [decodeAnnouncePeerQuery, e1, e2, e3, e4, e5]
  rw [Option.some_bind, decodeId_str _ h1, Option.some_bind,
    Option.some_bind, decodeId_str _ h2, Option.some_bind,
    Option.some_bind]
  rw [show asStr (.str q.token) = some q.token from rfl]
  rw [Option.some_bind, Option.some_bind, decodeU16_int _ h3,
    Option.some_bind, Option.some_bind, decodeU8_int _ h4]
  rfl

theorem rtAnnouncePeer (q : AnnouncePeerQuery) (t : List Nat)
    (h1 : q.id.length = 20) (h2 : q.info_hash.length = 20)
    (h3 : q.port < 65536) (h4 : q.implied_port < 256) :
    decodeTyped .announcePeer (encodeTyped (.announcePeer q) t)
      = some (.announcePeer q, t) := by
  unfold decodeTyped encodeTyped
  rw [topParse_encode, Option.some_bind]
  simp only [serOutgoing, serQueryArgs, queryName]
  simp only [dictLookup, kA, kQ, kT, kY]
  norm_num
  simp only [asStr, kindQueryName, decodeQueryArgs, Option.some_bind]
  rw [decodeAnnounce_args q h1 h2 h3 h4]
  rfl

theorem rtPingResp (r : PingResponse) (t : List Nat) (h1 : r.id.length = 20) :
    decodeTyped .pingResp (encodeTyped (.pingResp r) t)
      = some (.pingResp r, t) := by
  unfold decodeTyped encodeTyped
  rw [topParse_encode, Option.some_bind]
  simp only [serOutgoing, serQueryArgs, queryName, serRespDict]
  simp only [dictLookup, kR, kT, kY]
  norm_num
  simp only [asStr, kindQueryName, decodeRespDict, decodePingResponse,
    Option.some_bind]
  simp only [dictLookup, kId]
  norm_num [decodeId, asStr, h1]

theorem rtFindNodeResp (r : FindNodeResponse) (t : List Nat)
    (h1 : r.id.length = 20) (h2 : r.nodes.length % 26 = 0) :
    decodeTyped .findNodeResp (encodeTyped (.findNodeResp r) t)
      = some (.findNodeResp r, t) := by
  unfold decodeTyped encodeTyped
  rw [topParse_encode, Option.some_bind]
  simp only [serOutgoing, serQueryArgs, queryName, serRespDict]
  simp only [dictLookup, kR, kT, kY]
  norm_num
  simp only [asStr, kindQueryName, decodeRespDict, decodeFindNodeResponse,
    Option.some_bind]
  simp only [dictLookup, kId, kNodes]
  norm_num [decodeId, decodeNodesField, asStr, h1, h2]

theorem rtGetPeersResp (r : GetPeersResponse) (t : List Nat)
    (h1 : r.id.length = 20)
    (h2 : ∀ vs ∈ r.values, ∀ a ∈ vs, a.length = 6)
    (h3 : ∀ ns ∈ r.nodes, ns.length % 26 = 0) :
    decodeTyped .getPeersResp (encodeTyped (.getPeersResp r) t)
      = some (.getPeersResp r, t) := by
  unfold decodeTyped encodeTyped
  rw [topParse_encode, Option.some_bind]
  simp only [serOutgoing, serQueryArgs, queryName, serRespDict]
  simp only [dictLookup, kR, kT, kY]
  norm_num
  simp only [asStr, kindQueryName, decodeRespDict, Option.some_bind]
  rw [decodeGetPeers_ser r h1 h2 h3]
  simp

theorem rtAnnouncePeerResp (r : AnnouncePeerResponse) (t : List Nat)
    (h1 : r.id.length = 20) :
    decodeTyped .announcePeerResp (encodeTyped (.announcePeerResp r) t)
      = some (.announcePeerResp r, t) := by
  unfold decodeTyped encodeTyped
  rw [topParse_encode, Option.some_bind]
  simp only [serOutgoing, serQueryArgs, queryName, serRespDict]
  simp only [dictLookup, kR, kT, kY]
  norm_num
  simp only [asStr, kindQueryName, decodeRespDict, decodeAnnouncePeerResponse,
    Option.some_bind]
  simp only [dictLookup, kId]
  norm_num [decodeId, asStr, h1]

theorem incoming_rt (m : TypedMsg) (t : List Nat) :
    decodeIncoming (encodeTyped m t) = some (yTag m, t) := by
  cases m <;>
  · unfold decodeIncoming encodeTyped
    rw [topParse_encode, Option.some_bind]
    simp only [serOutgoing, serQueryArgs, queryName, serRespDict, yTag]
    norm_num [dictLookup, kA, kQ, kR, kT, kY, asStr]

/-! ## CRC32C bounds and bit lemmas -/

theorem crc32cStep_lt (c : Nat) (h : c < 2 ^ 32) : crc32cStep c < 2 ^ 32 := by
  unfold crc32cStep
  split
  · exact Nat.xor_lt_two_pow (by omega) (by norm_num)
  · omega

theorem crcRounds_lt : ∀ (n c : Nat), c < 2 ^ 32 → crcRounds n c < 2 ^ 32 := by
  intro n
  induction n with
  | zero => intro c h; simpa [crcRounds] using h
  | succ n ih =>
    intro c h
    rw [crcRounds]
    exact ih _ (crc32cStep_lt c h)

theorem crc32cByte_lt (c b : Nat) (h : c < 2 ^ 32) : crc32cByte c b < 2 ^ 32 :=
  crcRounds_lt 8 _ (Nat.xor_lt_two_pow h (by omega))

theorem crc32c_lt (data : List Nat) : crc32c data < 2 ^ 32 := by
  unfold crc32c
  refine Nat.xor_lt_two_pow ?_ (by norm_num)
  have : ∀ (l : List Nat) (c : Nat), c < 2 ^ 32 →
      l.foldl crc32cByte c < 2 ^ 32 := by
    intro l
    induction l with
    | nil => intro c h; simpa using h
    | cons b tl ih => intro c h; exact ih _ (crc32cByte_lt c b h)
  exact this data _ (by norm_num)

set_option maxRecDepth 4000 in
theorem land_248 (b : Nat) (hb : b < 256) : Nat.land b 248 = b / 8 * 8 := by
  have h := (by decide : ∀ x : Fin 256, Nat.land x.val 248 = x.val / 8 * 8)
  exact h ⟨b, hb⟩

set_option maxRecDepth 4000 in
theorem land_7 (b : Nat) (hb : b < 256) : Nat.land b 7 = b % 8 := by
  have h := (by decide : ∀ x : Fin 256, Nat.land x.val 7 = x.val % 8)
  exact h ⟨b, hb⟩

set_option maxRecDepth 4000 in
theorem lor_mul8 (a b : Nat) (ha : a < 32) (hb : b < 8) :
    Nat.lor (a * 8) b = a * 8 + b := by
  have h := (by decide : ∀ (x : Fin 32) (y : Fin 8),
    Nat.lor (x.val * 8) y.val = x.val * 8 + y.val)
  exact h ⟨a, ha⟩ ⟨b, hb⟩

/-! ## Chunk lemmas for CompactNodesList -/

theorem chunks26_spec : ∀ v : List Nat, v.length % 26 = 0 →
    (chunks26 v).length = v.length / 26 ∧ ∀ c ∈ chunks26 v, c.length = 26 := by
  intro v
  induction v using chunks26.induct with
  | case1 => intro _; simp [chunks26]
  | case2 a rest ih =>
    intro h
    have hn : (a :: rest).length = rest.length + 1 := by simp
    rw [hn] at h
    have hdlen : ((a :: rest).drop 26).length = rest.length + 1 - 26 := by
      simp [List.length_drop]
    have hdrop : ((a :: rest).drop 26).length % 26 = 0 := by
      rw [hdlen]; omega
    have ih' := ih hdrop
    rw [chunks26]
    refine ⟨?_, ?_⟩
    · simp only [List.length_cons, ih'.1, hdlen, hn]
      omega
    · intro c hc
      rcases List.mem_cons.mp hc with h1 | h1
      · subst h1
        simp only [List.length_take, hn]
        omega
      · exact ih'.2 c h1

/-! ## Sortedness of serialized values lists -/

theorem listDictsSorted_strs : ∀ vs : List (List Nat),
    listDictsSorted (strsToBList vs) = true := by
  intro vs
  induction vs with
  | nil => rfl
  | cons a tl ih => simp [strsToBList, listDictsSorted, valDictsSorted, ih]

/-! ## Hex display lemmas -/

theorem hexLower_facts : ∀ v : Fin 16,
    hexDigitVal (hexLower v.val) = some v.val ∧ hexLower v.val < 128
    ∧ hexLower v.val ≠ 43 ∧ hexLower v.val ≠ 45 := by decide

theorem hexUpper_facts : ∀ v : Fin 16,
    hexDigitVal (hexUpper v.val) = some v.val ∧ hexUpper v.val < 128
    ∧ hexUpper v.val ≠ 43 ∧ hexUpper v.val ≠ 45 := by decide

theorem fromStrGo_display : ∀ id : List Nat, (∀ b ∈ id, b < 256) →
    fromStrGo (dhtIdDisplay id) = .ok id := by
  intro id
  induction id with
  | nil => intro _; rfl
  | cons b tl ih =>
    intro h
    have hb : b < 256 := h b (by simp)
    have hhi := hexLower_facts ⟨b / 16, by omega⟩
    have hlo := hexLower_facts ⟨b % 16, by omega⟩
    simp only at hhi hlo
    have harg : dhtIdDisplay (b :: tl)
        = hexLower (b / 16) :: hexLower (b % 16) :: dhtIdDisplay tl := by
      simp [dhtIdDisplay]
    rw [harg, fromStrGo]
    rw [if_pos (by simp [utf8Pair]; omega)]
    rw [show hexChunk (hexLower (b / 16)) (hexLower (b % 16))
        = some (b / 16 * 16 + b % 16) by
      unfold hexChunk
      rw [if_neg hhi.2.2.1, hhi.1, hlo.1]]
    rw [ih (fun x hx => h x (by simp [hx]))]
    have : b / 16 * 16 + b % 16 = b := by omega
    rw [this]

theorem fromStrGo_displayUpper : ∀ id : List Nat, (∀ b ∈ id, b < 256) →
    fromStrGo (dhtIdDisplayUpper id) = .ok id := by
  intro id
  induction id with
  | nil => intro _; rfl
  | cons b tl ih =>
    intro h
    have hb : b < 256 := h b (by simp)
    have hhi := hexUpper_facts ⟨b / 16, by omega⟩
    have hlo := hexUpper_facts ⟨b % 16, by omega⟩
    simp only at hhi hlo
    have harg : dhtIdDisplayUpper (b :: tl)
        = hexUpper (b / 16) :: hexUpper (b % 16) :: dhtIdDisplayUpper tl := by
      simp [dhtIdDisplayUpper]
    rw [harg, fromStrGo]
    rw [if_pos (by simp [utf8Pair]; omega)]
    rw [show hexChunk (hexUpper (b / 16)) (hexUpper (b % 16))
        = some (b / 16 * 16 + b % 16) by
      unfold hexChunk
      rw [if_neg hhi.2.2.1, hhi.1, hlo.1]]
    rw [ih (fun x hx => h x (by simp [hx]))]
    have : b / 16 * 16 + b % 16 = b := by omega
    rw [this]

theorem dhtIdDisplay_length (id : List Nat) :
    (dhtIdDisplay id).length = 2 * id.length := by
  induction id with
  | nil => rfl
  | cons b tl ih => simp [dhtIdDisplay] at ih ⊢; omega

theorem dhtIdDisplayUpper_length (id : List Nat) :
    (dhtIdDisplayUpper id).length = 2 * id.length := by
  induction id with
  | nil => rfl
  | cons b tl ih => simp [dhtIdDisplayUpper] at ih ⊢; omega

theorem fromStrGo_ascii : ∀ s : List Nat, (∀ b ∈ s, b < 128) →
    (fromStrGo s = .errored ↔ allChunksHex s = false)
    ∧ fromStrGo s ≠ .panicked
  | [] => by intro _; simp [fromStrGo, allChunksHex]
  | [a] => by
    intro h
    have ha : a < 128 := h a (by simp)
    rw [show fromStrGo [a] = if a < 128 then
        (match hexDigitVal a with
         | some v => .ok [v]
         | none => .errored) else .panicked from rfl]
    rw [if_pos ha]
    cases hv : hexDigitVal a <;> simp [allChunksHex, hv]
  | a :: b :: rest => by
    intro h
    have ha : a < 128 := h a (by simp)
    have hb : b < 128 := h b (by simp)
    have ih := fromStrGo_ascii rest (fun x hx => h x (by simp [hx]))
    rw [fromStrGo, if_pos (by simp [utf8Pair]; omega)]
    cases hc : hexChunk a b with
    | none => simp [allChunksHex, hc]
    | some v =>
      cases hgo : fromStrGo rest with
      | ok tl =>
        have hnotf : allChunksHex rest = true := by
          cases hall : allChunksHex rest with
          | false => exact absurd (ih.1.mpr hall) (by simp [hgo])
          | true => rfl
        simp [allChunksHex, hc, hgo, hnotf]
      | errored => simp [allChunksHex, hc, hgo, (ih.1).mp (by simp [hgo])]
      | panicked => exact absurd hgo ih.2

/-! ## Claim theorems -/

/-- C1: the claim requires reply correlation by transaction-token byte
equality. The code violates it on the little-endian reference targets:
`send_message` registers query id 1 and puts `to_be_bytes 1 = [0, 1]`
on the wire, but the receive loop reconstructs the id from the echoed
bytes `[0, 1]` with `from_ne_bytes`, obtaining 256. A reply whose `t`
equals the registered token bytes is therefore not delivered to the
registered Waiter (it is dropped, the Waiter stays), and when a Waiter
for id 256 is also outstanding the reply is delivered to that wrong
Waiter instead. -/
theorem c1_token_route_mismatch :
    (NodeQueue.getNextId ⟨0, []⟩).1 = 1
    ∧ sendTokenBytes 1 = [0, 1]
    ∧ recvQueryId (sendTokenBytes 1) = 256
    ∧ (NodeQueue.gotReply ⟨1, [(1, ⟨true⟩)]⟩ (recvQueryId (sendTokenBytes 1))).2
        = .droppedNoWaiter
    ∧ (NodeQueue.gotReply ⟨1, [(1, ⟨true⟩)]⟩ (recvQueryId (sendTokenBytes 1))).1.waiting
        = [(1, ⟨true⟩)]
    ∧ (NodeQueue.gotReply ⟨256, [(1, ⟨true⟩), (256, ⟨true⟩)]⟩
        (recvQueryId (sendTokenBytes 1))).2 = .delivered 256 := by
  decide

/-- C2: the claim states that a reply arriving for a Waiter whose
future was abandoned is dropped silently, with `got_reply` removing
the Waiter and returning normally. The code instead panics: with the
receiver side of the one-shot channel gone, `Sender::send` returns
`Err(packet)` and `got_reply`'s `.unwrap()` on it panics (the Waiter
is removed first, nothing is delivered). -/
theorem c2_late_reply_panics :
    NodeQueue.gotReply ⟨1, [(1, ⟨false⟩)]⟩ 1 = (⟨1, []⟩, .panicked)
    ∧ NodeQueue.gotReply ⟨1, [(1, ⟨true⟩)]⟩ 1 = (⟨1, []⟩, .delivered 1) := by
  decide

/-- C3: for every typed message (all four query variants and all four
response types) and every transaction token, and likewise for every
outgoing error message, every dictionary in the emitted bencode value
has its keys in strictly ascending lexicographic byte order — the
envelope dictionary and every nested argument dictionary. -/
theorem c3_sorted_dict_keys :
    (∀ (m : TypedMsg) (t : List Nat), valDictsSorted (serOutgoing m t) = true)
    ∧ ∀ (code : Int) (msg t : List Nat),
      valDictsSorted (serError code msg t) = true := by
  constructor
  · intro m t
    cases m with
    | getPeersResp r =>
      obtain ⟨i, tok, ov, on'⟩ := r
      cases ov <;> cases on' <;>
        simp [serOutgoing, serQueryArgs, queryName, serRespDict,
          serGetPeersDict, valDictsSorted, keysSorted, pairsDictsSorted,
          listDictsSorted_strs, kId, kNodes, kToken, kValues, kR, kT, kY,
          lexLtBytes]
    | ping q => rfl
    | findNode q => rfl
    | getPeers q => rfl
    | announcePeer q => rfl
    | pingResp r => rfl
    | findNodeResp r => rfl
    | announcePeerResp r => rfl
  · intro code msg t
    rfl

/-- C4: encode/decode round-trip. For every well-formed typed message
and every transaction token, serializing the outgoing envelope and
decoding the bytes with the matching kind returns exactly the message
and the token, and the shallow `IncomingMessage` decode of the same
bytes returns exactly the `y` discriminator and the token bytes. -/
theorem c4_roundtrip (m : TypedMsg) (t : List Nat) (h : wfMsg m) :
    decodeTyped (kindOf m) (encodeTyped m t) = some (m, t)
    ∧ decodeIncoming (encodeTyped m t) = some (yTag m, t) := by
  refine ⟨?_, incoming_rt m t⟩
  cases m with
  | ping q => exact rtPing q t h
  | findNode q => exact rtFindNode q t h.1 h.2
  | getPeers q => exact rtGetPeers q t h.1 h.2
  | announcePeer q => exact rtAnnouncePeer q t h.1 h.2.1 h.2.2.1 h.2.2.2
  | pingResp r => exact rtPingResp r t h
  | findNodeResp r => exact rtFindNodeResp r t h.1 h.2
  | getPeersResp r => exact rtGetPeersResp r t h.1 h.2.1 h.2.2
  | announcePeerResp r => exact rtAnnouncePeerResp r t h

/-- C4 witness: the round-trip at a concrete announce_peer query and
token. -/
theorem c4_roundtrip_witness :
    wfMsg (.announcePeer ⟨List.replicate 20 1, List.replicate 20 2, [7, 8], 6881, 1⟩)
    ∧ decodeTyped
        (kindOf (.announcePeer ⟨List.replicate 20 1, List.replicate 20 2, [7, 8], 6881, 1⟩))
        (encodeTyped (.announcePeer ⟨List.replicate 20 1, List.replicate 20 2, [7, 8], 6881, 1⟩) [0, 1])
        = some (.announcePeer ⟨List.replicate 20 1, List.replicate 20 2, [7, 8], 6881, 1⟩, [0, 1])
    ∧ decodeIncoming
        (encodeTyped (.announcePeer ⟨List.replicate 20 1, List.replicate 20 2, [7, 8], 6881, 1⟩) [0, 1])
        = some (yTag (.announcePeer ⟨List.replicate 20 1, List.replicate 20 2, [7, 8], 6881, 1⟩), [0, 1]) :=
  ⟨by decide,
   (c4_roundtrip _ [0, 1] (by decide)).1,
   (c4_roundtrip _ [0, 1] (by decide)).2⟩

/-- C5: for every IP address (IPv4 or IPv6) and every 20-byte random
candidate, the identity produced by `gen_self_id` has its first 21
bits equal to `crc32c(masked_ip) >> 11`, the salt being the
candidate's last byte; and on the spec test vector, IP 124.31.75.21
with r = 0x01, the CRC's top 21 bits equal `0x05fbfbf >> 3`. -/
theorem c5_first21_bits :
    (∀ ip : IpAddr, ∀ cand : List Nat,
      cand.length = 20 → (∀ x ∈ cand, x < 256) →
      first21Bits (genSelfId ip cand) = getCrc ip (cand.getD 19 0) / 2048)
    ∧ getCrc (.v4 [124, 31, 75, 21]) 1 / 2048 = 0x05fbfbf / 8 := by
  constructor
  · intro ip cand hlen hb
    have hc : getCrc ip (cand.getD 19 0) < 2 ^ 32 := by
      cases ip <;> exact crc32c_lt _
    have hcand2 : cand.getD 2 0 < 256 := by
      have h2 : 2 < cand.length := by omega
      rw [List.getD_eq_getElem _ _ h2]
      exact hb _ (List.getElem_mem h2)
    simp only [genSelfId, first21Bits, List.getD_cons_zero,
      List.getD_cons_succ]
    rw [land_248 _ (by omega), land_7 _ hcand2, lor_mul8 _ _ (by omega) (by omega)]
    omega
  · decide

/-- C5 witness: the general bit identity applied at a concrete IPv4
address and at a concrete IPv6 address (both arms of `get_crc`). -/
theorem c5_first21_bits_witness :
    first21Bits (genSelfId (.v4 [124, 31, 75, 21]) (List.replicate 20 1))
      = getCrc (.v4 [124, 31, 75, 21]) ((List.replicate 20 1).getD 19 0) / 2048
    ∧ first21Bits (genSelfId
        (.v6 [32, 1, 13, 184, 133, 163, 0, 0, 0, 0, 138, 46, 3, 112, 115, 52])
        (List.replicate 20 7))
      = getCrc (.v6 [32, 1, 13, 184, 133, 163, 0, 0, 0, 0, 138, 46, 3, 112, 115, 52])
          ((List.replicate 20 7).getD 19 0) / 2048 :=
  ⟨c5_first21_bits.1 (.v4 [124, 31, 75, 21]) (List.replicate 20 1)
     (by decide) (by decide),
   c5_first21_bits.1 (.v6 [32, 1, 13, 184, 133, 163, 0, 0, 0, 0, 138, 46, 3, 112, 115, 52])
     (List.replicate 20 7) (by decide) (by decide)⟩

/-- C6: `CompactNode::unpack` reads the port little-endian — for every
26-byte buffer the port is `b[24] + 256 * b[25]` — while
`DhtContactId::new` packs the port big-endian, so packing a contact
with port p and unpacking the bytes yields p with its two bytes
swapped. -/
theorem c6_port_endianness :
    (∀ buf : List Nat, buf.length = 26 →
      (compactNodeUnpack buf).map CompactNode.port
        = some (buf.getD 24 0 + 256 * buf.getD 25 0))
    ∧ ∀ (id : List Nat) (i0 i1 i2 i3 p : Nat), id.length = 20 → p < 65536 →
      (compactNodeUnpack (dhtContactIdNew id i0 i1 i2 i3 p)).map CompactNode.port
        = some (p % 256 * 256 + p / 256) := by
  constructor
  · intro buf h
    simp [compactNodeUnpack, h]
  · intro id i0 i1 i2 i3 p hid hp
    have hform : dhtContactIdNew id i0 i1 i2 i3 p
        = id ++ [i0, i1, i2, i3, p / 256 % 256, p % 256] := by
      simp [dhtContactIdNew]
    have hlen : (id ++ [i0, i1, i2, i3, p / 256 % 256, p % 256]).length = 26 := by
      simp [hid]
    have h24 : (id ++ [i0, i1, i2, i3, p / 256 % 256, p % 256]).getD 24 0
        = p / 256 % 256 := by
      rw [List.getD_eq_getElem _ _ (by simp [hid])]
      rw [List.getElem_append_right (by omega)]
      simp [hid]
    have h25 : (id ++ [i0, i1, i2, i3, p / 256 % 256, p % 256]).getD 25 0
        = p % 256 := by
      rw [List.getD_eq_getElem _ _ (by simp [hid])]
      rw [List.getElem_append_right (by omega)]
      simp [hid]
    have hval : (compactNodeUnpack (id ++ [i0, i1, i2, i3, p / 256 % 256, p % 256])).map
        CompactNode.port
        = some ((id ++ [i0, i1, i2, i3, p / 256 % 256, p % 256]).getD 24 0
            + 256 * (id ++ [i0, i1, i2, i3, p / 256 % 256, p % 256]).getD 25 0) := by
      rw [compactNodeUnpack, if_pos hlen]
      rfl
    rw [hform, hval, h24, h25, Option.some.injEq]
    omega

/-- C6 witness: both parts at concrete buffers (port 0x1234 packs
big-endian and unpacks as 0x3412). -/
theorem c6_port_endianness_witness :
    (compactNodeUnpack (List.replicate 26 3)).map CompactNode.port
      = some ((List.replicate 26 3).getD 24 0 + 256 * (List.replicate 26 3).getD 25 0)
    ∧ (compactNodeUnpack (dhtContactIdNew (List.replicate 20 1) 10 20 30 40 4660)).map
        CompactNode.port = some (4660 % 256 * 256 + 4660 / 256) :=
  ⟨c6_port_endianness.1 _ (by decide),
   c6_port_endianness.2 _ 10 20 30 40 4660 (by decide) (by decide)⟩

/-- C7: decoding a CompactNodesList from a byte string whose length is
a multiple of 26 succeeds and iterating it yields length / 26 nodes
with the 26-byte chunk assertion never firing; any other length fails
with the BadLength error. -/
theorem c7_nodes_list_length (v : List Nat) :
    (v.length % 26 = 0 →
      decodeCompactNodesList v = .ok v
      ∧ (compactNodesIter v).length = v.length / 26
      ∧ ∀ o ∈ compactNodesIter v, o.isSome = true)
    ∧ (v.length % 26 ≠ 0 → decodeCompactNodesList v = .error .badLength) := by
  constructor
  · intro h
    have hs := chunks26_spec v h
    refine ⟨by simp [decodeCompactNodesList, h], ?_, ?_⟩
    · simp [compactNodesIter, hs.1]
    · intro o ho
      rcases List.mem_map.mp ho with ⟨c, hc, rfl⟩
      simp [compactNodeUnpack, hs.2 c hc]
  · intro h
    simp [decodeCompactNodesList, h]

/-- C7 witness: a 52-byte buffer decodes and iterates as two nodes; a
3-byte buffer fails with BadLength. -/
theorem c7_nodes_list_length_witness :
    (decodeCompactNodesList (List.replicate 52 9) = .ok (List.replicate 52 9)
      ∧ (compactNodesIter (List.replicate 52 9)).length = (List.replicate 52 9).length / 26
      ∧ ∀ o ∈ compactNodesIter (List.replicate 52 9), o.isSome = true)
    ∧ decodeCompactNodesList [1, 2, 3] = .error .badLength :=
  ⟨(c7_nodes_list_length _).1 (by decide), (c7_nodes_list_length _).2 (by decide)⟩

/-- C8: decoding a GetPeersResponse dictionary succeeds whether it
carries only `values`, only `nodes`, both or neither (with valid `id`
and `token`): the absent option decodes to none and the present one is
populated. -/
theorem c8_get_peers_options (id tok : List Nat)
    (ov : Option (List (List Nat))) (onodes : Option (List Nat))
    (h1 : id.length = 20)
    (h2 : ∀ vs ∈ ov, ∀ a ∈ vs, a.length = 6)
    (h3 : ∀ ns ∈ onodes, ns.length % 26 = 0) :
    decodeGetPeersResponse (serGetPeersDict ⟨id, tok, ov, onodes⟩)
      = some ⟨id, tok, ov, onodes⟩ :=
  decodeGetPeers_ser ⟨id, tok, ov, onodes⟩ h1 h2 h3

/-- C8 witness: the four presence combinations at concrete field
values. -/
theorem c8_get_peers_options_witness :
    decodeGetPeersResponse (serGetPeersDict
        ⟨List.replicate 20 1, [9], some [[1, 2, 3, 4, 5, 6]], some (List.replicate 26 2)⟩)
      = some ⟨List.replicate 20 1, [9], some [[1, 2, 3, 4, 5, 6]], some (List.replicate 26 2)⟩
    ∧ decodeGetPeersResponse (serGetPeersDict
        ⟨List.replicate 20 1, [9], some [[1, 2, 3, 4, 5, 6]], none⟩)
      = some ⟨List.replicate 20 1, [9], some [[1, 2, 3, 4, 5, 6]], none⟩
    ∧ decodeGetPeersResponse (serGetPeersDict
        ⟨List.replicate 20 1, [9], none, some (List.replicate 26 2)⟩)
      = some ⟨List.replicate 20 1, [9], none, some (List.replicate 26 2)⟩
    ∧ decodeGetPeersResponse (serGetPeersDict ⟨List.replicate 20 1, [9], none, none⟩)
      = some ⟨List.replicate 20 1, [9], none, none⟩ :=
  ⟨c8_get_peers_options _ _ _ _ (by decide) (by decide) (by decide),
   c8_get_peers_options _ _ _ _ (by decide) (by decide) (by decide),
   c8_get_peers_options _ _ _ _ (by decide) (by decide) (by decide),
   c8_get_peers_options _ _ _ _ (by decide) (by decide) (by decide)⟩

/-- C9 counterexample: the claim says parsing fails with an error
whenever a digit is not hexadecimal, but `u8::from_str_radix` accepts
an optional leading sign, so the 40-byte input consisting of twenty
"+1" chunks — whose bytes include 43, not a hex digit — parses
successfully to twenty 0x01 bytes. -/
theorem c9_nonhex_accepted :
    hexDigitVal 43 = none
    ∧ 43 ∈ List.flatten (List.replicate 20 [43, 49])
    ∧ (List.flatten (List.replicate 20 [43, 49])).length = 40
    ∧ dhtIdFromStr (List.flatten (List.replicate 20 [43, 49]))
        = .ok (List.replicate 20 1) := by
  decide

/-- C9 (amended): hex round-trip holds — parsing the lowercase display
of any 20-byte id returns that id, uppercase is accepted too — and
parsing fails with an error whenever the byte length differs from 40;
for 40-byte all-ASCII inputs it fails with an error exactly when some
two-byte chunk is rejected by `u8::from_str_radix(chunk, 16)` (which
also accepts a leading `+` sign, so a non-hex byte alone does not
force failure), and it never panics on such inputs. -/
theorem c9_hex_roundtrip :
    (∀ id : List Nat, id.length = 20 → (∀ b ∈ id, b < 256) →
      dhtIdFromStr (dhtIdDisplay id) = .ok id
      ∧ dhtIdFromStr (dhtIdDisplayUpper id) = .ok id)
    ∧ (∀ s : List Nat, s.length ≠ 40 → dhtIdFromStr s = .errored)
    ∧ ∀ s : List Nat, s.length = 40 → (∀ b ∈ s, b < 128) →
      ((dhtIdFromStr s = .errored ↔ allChunksHex s = false)
        ∧ dhtIdFromStr s ≠ .panicked) := by
  refine ⟨?_, ?_, ?_⟩
  · intro id hlen hb
    constructor
    · rw [dhtIdFromStr, if_pos (by rw [dhtIdDisplay_length, hlen])]
      exact fromStrGo_display id hb
    · rw [dhtIdFromStr, if_pos (by rw [dhtIdDisplayUpper_length, hlen])]
      exact fromStrGo_displayUpper id hb
  · intro s h
    simp [dhtIdFromStr, h]
  · intro s hlen hb
    rw [dhtIdFromStr, if_pos hlen]
    exact fromStrGo_ascii s hb

/-- C9 witness: the amended behaviour at concrete inputs — round-trip
of an id of 0xAB bytes, error on a 3-byte input, and no panic on the
ASCII non-hex input "0g0g...". -/
theorem c9_hex_roundtrip_witness :
    dhtIdFromStr (dhtIdDisplay (List.replicate 20 171))
      = .ok (List.replicate 20 171)
    ∧ dhtIdFromStr [49, 50, 51] = .errored
    ∧ dhtIdFromStr (List.flatten (List.replicate 20 [48, 103])) ≠ .panicked :=
  ⟨(c9_hex_roundtrip.1 _ (by decide) (by decide)).1,
   c9_hex_roundtrip.2.1 _ (by decide),
   (c9_hex_roundtrip.2.2 _ (by decide) (by decide)).2⟩

/-- C10: the claim says `DhtId::from_str` is total on 40-byte inputs.
The code panics on the valid 40-byte UTF-8 string "0€00…0": the euro
sign's three bytes straddle a `chunks(2)` boundary, so the first chunk
is [48, 226], `str::from_utf8` on it fails, and the `.unwrap()`
panics instead of returning the hex-parse error. -/
theorem c10_from_str_panics :
    ([48, 226, 130, 172] ++ List.replicate 36 48).length = 40
    ∧ dhtIdFromStr ([48, 226, 130, 172] ++ List.replicate 36 48) = .panicked := by
  decide

end DuHasT
